import Mathlib

/-!
Verification development for the self-driving-car repository.

The JavaScript source is shallowly embedded over the rationals: every
numeric value of the program is modelled as a `Rat`, arrays as `List`s,
the string-keyed Q-table as an association list keyed by the discretized
state vector (a canonical encoding of the joined key string), and each
call to the host random-number generator as an explicit rational argument
in the half-open unit interval.  A separate model with an explicit
undefined/NaN value domain captures the error semantics of the two
RLAgent lineages.
-/

set_option maxHeartbeats 1000000
set_option linter.unusedVariables false

/- ### Generic list helpers -/

theorem getD_range_map {α : Type} (f : ℕ → α) (d : α) {n i : ℕ} (h : i < n) :
    ((List.range n).map f).getD i d = f i := by
  rw [List.getD_eq_getElem?_getD, List.getElem?_map, List.getElem?_range h]
  rfl

theorem range_map_getD {α : Type} (l : List α) (d : α) :
    (List.range l.length).map (fun i => l.getD i d) = l := by
  apply List.ext_getElem
  · simp
  · intro n h1 h2
    simp only [List.getElem_map, List.getElem_range]
    exact List.getD_eq_getElem l d h2

/-- Model of JavaScript Math.max spread over a possibly empty array; the
empty case (never reached under the hypotheses used below) is given a
junk value. -/
def listMax : List ℚ → ℚ
  | [] => 0
  | x :: xs => xs.foldl max x

/-- Model of JavaScript Math.min spread over a possibly empty array. -/
def listMin : List ℚ → ℚ
  | [] => 0
  | x :: xs => xs.foldl min x

theorem le_foldl_max (xs : List ℚ) (a : ℚ) : a ≤ xs.foldl max a := by
  induction xs generalizing a with
  | nil => exact le_refl a
  | cons x xs ih =>
      exact le_trans (le_max_left a x) (ih (max a x))

theorem foldl_max_mem (xs : List ℚ) (a : ℚ) :
    xs.foldl max a = a ∨ xs.foldl max a ∈ xs := by
  induction xs generalizing a with
  | nil => exact Or.inl rfl
  | cons x xs ih =>
      rcases ih (max a x) with h | h
      · rcases max_choice a x with hm | hm
        · exact Or.inl (by rw [List.foldl_cons, h, hm])
        · exact Or.inr (by rw [List.foldl_cons, h, hm]; exact List.mem_cons_self x xs)
      · exact Or.inr (List.mem_cons_of_mem x h)

theorem mem_le_foldl_max (xs : List ℚ) (a x : ℚ) (hx : x ∈ xs) :
    x ≤ xs.foldl max a := by
  induction xs generalizing a with
  | nil => cases hx
  | cons y ys ih =>
      rcases List.mem_cons.mp hx with h | h
      · subst h
        exact le_trans (le_max_right a x) (le_foldl_max ys (max a x))
      · exact ih (max a y) h

theorem listMax_mem {l : List ℚ} (h : l ≠ []) : listMax l ∈ l := by
  cases l with
  | nil => exact absurd rfl h
  | cons x xs =>
      rcases foldl_max_mem xs x with h1 | h1
      · rw [listMax, h1]; exact List.mem_cons_self x xs
      · rw [listMax]; exact List.mem_cons_of_mem x h1

theorem le_listMax {l : List ℚ} {x : ℚ} (hx : x ∈ l) : x ≤ listMax l := by
  cases l with
  | nil => cases hx
  | cons y ys =>
      rcases List.mem_cons.mp hx with h | h
      · subst h; exact le_foldl_max ys x
      · exact mem_le_foldl_max ys y x h

theorem foldl_min_le (xs : List ℚ) (a : ℚ) : xs.foldl min a ≤ a := by
  induction xs generalizing a with
  | nil => exact le_refl a
  | cons x xs ih =>
      exact le_trans (ih (min a x)) (min_le_left a x)

theorem foldl_min_mem (xs : List ℚ) (a : ℚ) :
    xs.foldl min a = a ∨ xs.foldl min a ∈ xs := by
  induction xs generalizing a with
  | nil => exact Or.inl rfl
  | cons x xs ih =>
      rcases ih (min a x) with h | h
      · rcases min_choice a x with hm | hm
        · exact Or.inl (by rw [List.foldl_cons, h, hm])
        · exact Or.inr (by rw [List.foldl_cons, h, hm]; exact List.mem_cons_self x xs)
      · exact Or.inr (List.mem_cons_of_mem x h)

theorem foldl_min_le_mem (xs : List ℚ) (a x : ℚ) (hx : x ∈ xs) :
    xs.foldl min a ≤ x := by
  induction xs generalizing a with
  | nil => cases hx
  | cons y ys ih =>
      rcases List.mem_cons.mp hx with h | h
      · subst h
        exact le_trans (foldl_min_le ys (min a x)) (min_le_right a x)
      · exact ih (min a y) h

theorem listMin_mem {l : List ℚ} (h : l ≠ []) : listMin l ∈ l := by
  cases l with
  | nil => exact absurd rfl h
  | cons x xs =>
      rcases foldl_min_mem xs x with h1 | h1
      · rw [listMin, h1]; exact List.mem_cons_self x xs
      · rw [listMin]; exact List.mem_cons_of_mem x h1

theorem listMin_le {l : List ℚ} {x : ℚ} (hx : x ∈ l) : listMin l ≤ x := by
  cases l with
  | nil => cases hx
  | cons y ys =>
      rcases List.mem_cons.mp hx with h | h
      · subst h; exact foldl_min_le ys x
      · exact foldl_min_le_mem ys y x h

/- ### Geometry kernel (utils.js) -/

/-- Linear interpolation, from utils.js: lerp(A, B, t) = A + (B - A) * t. -/
def lerp (A B t : ℚ) : ℚ := A + (B - A) * t

/-- A plane point, the {x, y} record of the source. -/
structure Pt where
  x : ℚ
  y : ℚ
deriving DecidableEq, Repr

/-- An intersection record {x, y, offset} as returned by getIntersection. -/
structure IPt where
  x : ℚ
  y : ℚ
  offset : ℚ
deriving DecidableEq, Repr

/-- The tTop determinant computed by getIntersection in utils.js. -/
def iTTop (A B C D : Pt) : ℚ :=
  (D.x - C.x) * (A.y - C.y) - (D.y - C.y) * (A.x - C.x)

/-- The uTop determinant computed by getIntersection in utils.js. -/
def iUTop (A B C D : Pt) : ℚ :=
  (C.y - A.y) * (A.x - B.x) - (C.x - A.x) * (A.y - B.y)

/-- The bottom (cross-product denominator) of getIntersection in utils.js. -/
def iBottom (A B C D : Pt) : ℚ :=
  (D.y - C.y) * (B.x - A.x) - (D.x - C.x) * (B.y - A.y)

/-- The parameter t = tTop / bottom along segment AB. -/
def iT (A B C D : Pt) : ℚ := iTTop A B C D / iBottom A B C D

/-- The parameter u = uTop / bottom along segment CD. -/
def iU (A B C D : Pt) : ℚ := iUTop A B C D / iBottom A B C D

/-- getIntersection from utils.js: solves the parametric segment
intersection and returns a point only when the denominator is nonzero
(exact comparison, no epsilon) and both parameters lie in [0, 1]. -/
def getIntersection (A B C D : Pt) : Option IPt :=
  if iBottom A B C D ≠ 0 then
    if 0 ≤ iT A B C D ∧ iT A B C D ≤ 1 ∧ 0 ≤ iU A B C D ∧ iU A B C D ≤ 1 then
      some ⟨lerp A.x B.x (iT A B C D), lerp A.y B.y (iT A B C D), iT A B C D⟩
    else none
  else none

/-- When the denominator is nonzero, the point AB interpolated at t equals
the point CD interpolated at u: the returned intersection point lies on
both carrier lines (Cramer rule check for the determinant formulas). -/
theorem intersection_on_CD (A B C D : Pt) (h : iBottom A B C D ≠ 0) :
    lerp A.x B.x (iT A B C D) = lerp C.x D.x (iU A B C D) ∧
    lerp A.y B.y (iT A B C D) = lerp C.y D.y (iU A B C D) := by
  unfold iBottom at h
  unfold lerp iT iU iTTop iUTop iBottom
  constructor
  · field_simp
    ring
  · field_simp
    ring

/-- Claim C5: getIntersection returns a result if and only if the
cross-product denominator is nonzero (exact comparison) and both
parametric parameters t (along AB) and u (along CD) lie in [0, 1]; a
returned result is the interpolation of A and B at t, its offset equals
t, and the point also lies on CD at parameter u; for parallel segments
(denominator exactly 0) or non-overlapping segments it is absent. -/
theorem getIntersection_spec (A B C D : Pt) :
    ((∃ r, getIntersection A B C D = some r) ↔
      iBottom A B C D ≠ 0 ∧ 0 ≤ iT A B C D ∧ iT A B C D ≤ 1 ∧
        0 ≤ iU A B C D ∧ iU A B C D ≤ 1) ∧
    ∀ r : IPt, getIntersection A B C D = some r →
      r.offset = iT A B C D ∧
      r.x = lerp A.x B.x (iT A B C D) ∧ r.y = lerp A.y B.y (iT A B C D) ∧
      r.x = lerp C.x D.x (iU A B C D) ∧ r.y = lerp C.y D.y (iU A B C D) := by
  constructor
  · unfold getIntersection
    split_ifs with h1 h2
    · exact iff_of_true ⟨_, rfl⟩ ⟨h1, h2.1, h2.2.1, h2.2.2.1, h2.2.2.2⟩
    · refine iff_of_false ?_ ?_
      · rintro ⟨r, hr⟩; cases hr
      · rintro ⟨-, a, b, c, d⟩; exact h2 ⟨a, b, c, d⟩
    · refine iff_of_false ?_ ?_
      · rintro ⟨r, hr⟩; cases hr
      · rintro ⟨hb, -⟩; exact h1 hb
  · intro r hr
    unfold getIntersection at hr
    split_ifs at hr with h1 h2
    have hcd := intersection_on_CD A B C D h1
    injection hr with hr
    subst hr
    exact ⟨rfl, rfl, rfl, hcd.1, hcd.2⟩

def ptA : Pt := ⟨0, 0⟩

def ptB : Pt := ⟨10, 10⟩

def ptC : Pt := ⟨0, 10⟩

def ptD : Pt := ⟨10, 0⟩

/-- Witness for C5 at the two diagonals of a square: the intersection is
returned at offset 1/2 and lies on both segments. -/
theorem getIntersection_spec_witness :
    (⟨5, 5, 1/2⟩ : IPt).offset = iT ptA ptB ptC ptD ∧
    (⟨5, 5, 1/2⟩ : IPt).x = lerp ptA.x ptB.x (iT ptA ptB ptC ptD) ∧
    (⟨5, 5, 1/2⟩ : IPt).y = lerp ptA.y ptB.y (iT ptA ptB ptC ptD) ∧
    (⟨5, 5, 1/2⟩ : IPt).x = lerp ptC.x ptD.x (iU ptA ptB ptC ptD) ∧
    (⟨5, 5, 1/2⟩ : IPt).y = lerp ptC.y ptD.y (iU ptA ptB ptC ptD) :=
  (getIntersection_spec ptA ptB ptC ptD).2 ⟨5, 5, 1/2⟩ (by
    norm_num [getIntersection, iT, iU, iTTop, iUTop, iBottom, lerp,
      ptA, ptB, ptC, ptD])

/- ### Polygon overlap (utils.js) -/

/-- polysIntersect from utils.js: true iff some edge of poly1 (vertex i to
vertex (i+1) mod n) intersects some edge of poly2. -/
def polysIntersect (poly1 poly2 : List Pt) : Bool :=
  (List.range poly1.length).any fun i =>
    (List.range poly2.length).any fun j =>
      (getIntersection
        (poly1.getD i ⟨0, 0⟩) (poly1.getD ((i + 1) % poly1.length) ⟨0, 0⟩)
        (poly2.getD j ⟨0, 0⟩) (poly2.getD ((j + 1) % poly2.length) ⟨0, 0⟩)).isSome

/-- Claim C10: when no edge of Q intersects any edge of P (in particular
whenever Q lies strictly inside P), polysIntersect P Q returns false:
full containment without edge crossings is not detected as an overlap. -/
theorem polysIntersect_containment (P Q : List Pt)
    (h : ∀ i < P.length, ∀ j < Q.length,
      getIntersection
        (P.getD i ⟨0, 0⟩) (P.getD ((i + 1) % P.length) ⟨0, 0⟩)
        (Q.getD j ⟨0, 0⟩) (Q.getD ((j + 1) % Q.length) ⟨0, 0⟩) = none) :
    polysIntersect P Q = false := by
  simp only [polysIntersect, List.any_eq_false, List.mem_range]
  intro i hi hany
  rw [List.any_eq_true] at hany
  obtain ⟨j, hj, hsome⟩ := hany
  rw [h i hi j (List.mem_range.mp hj)] at hsome
  simp at hsome

def polyOuterSquare : List Pt := [⟨0, 0⟩, ⟨10, 0⟩, ⟨10, 10⟩, ⟨0, 10⟩]

def polyInnerSquare : List Pt := [⟨4, 4⟩, ⟨6, 4⟩, ⟨6, 6⟩, ⟨4, 6⟩]

/-- Witness for C10: a small square strictly inside a large one (every
vertex strictly inside) is reported as not intersecting. -/
theorem polysIntersect_containment_witness :
    (∀ v ∈ polyInnerSquare, 0 < v.x ∧ v.x < 10 ∧ 0 < v.y ∧ v.y < 10) ∧
    polysIntersect polyOuterSquare polyInnerSquare = false := by
  constructor
  · intro v hv
    simp only [polyInnerSquare, List.mem_cons, List.not_mem_nil, or_false] at hv
    rcases hv with h | h | h | h <;> subst h <;> norm_num
  · exact polysIntersect_containment _ _ (by
      intro i hi j hj
      simp only [polyOuterSquare, polyInnerSquare, List.length_cons,
        List.length_nil] at hi hj
      interval_cases i <;> interval_cases j <;>
        norm_num [polyOuterSquare, polyInnerSquare, getIntersection,
          iT, iU, iTTop, iUTop, iBottom])

/- ### Sensor (Sensor.#getReading) -/

/-- All intersections of a ray with the road borders and with every edge
of every traffic polygon, in the collection order of Sensor.#getReading
(borders first, then each polygon edge j to (j+1) mod n). -/
def touchesOf (ray : Pt × Pt) (roadBorders : List (Pt × Pt))
    (traffic : List (List Pt)) : List IPt :=
  roadBorders.filterMap (fun b => getIntersection ray.1 ray.2 b.1 b.2) ++
  traffic.flatMap (fun poly =>
    (List.range poly.length).filterMap (fun j =>
      getIntersection ray.1 ray.2 (poly.getD j ⟨0, 0⟩)
        (poly.getD ((j + 1) % poly.length) ⟨0, 0⟩)))

/-- Sensor.#getReading: collects all touches and returns the one whose
offset is the minimum of all offsets (the first such, via Array.find). -/
def getReading (ray : Pt × Pt) (roadBorders : List (Pt × Pt))
    (traffic : List (List Pt)) : Option IPt :=
  if touchesOf ray roadBorders traffic = [] then none
  else
    (touchesOf ray roadBorders traffic).find? fun e =>
      decide (e.offset = listMin ((touchesOf ray roadBorders traffic).map IPt.offset))

/-- Claim C6: the reading for a ray is absent exactly when the ray meets
no border segment and no traffic-polygon edge; otherwise the returned
reading is one of the collected intersections and its offset is minimal
among all of them, so of two border hits at different distances only the
nearer is returned. -/
theorem getReading_nearest (ray : Pt × Pt) (roadBorders : List (Pt × Pt))
    (traffic : List (List Pt)) :
    (getReading ray roadBorders traffic = none ↔
      touchesOf ray roadBorders traffic = []) ∧
    (touchesOf ray roadBorders traffic = [] ↔
      ((∀ b ∈ roadBorders, getIntersection ray.1 ray.2 b.1 b.2 = none) ∧
        ∀ poly ∈ traffic, ∀ j < poly.length,
          getIntersection ray.1 ray.2 (poly.getD j ⟨0, 0⟩)
            (poly.getD ((j + 1) % poly.length) ⟨0, 0⟩) = none)) ∧
    ∀ rd, getReading ray roadBorders traffic = some rd →
      rd ∈ touchesOf ray roadBorders traffic ∧
      ∀ t ∈ touchesOf ray roadBorders traffic, rd.offset ≤ t.offset := by
  refine ⟨?_, ?_, ?_⟩
  · rw [getReading]
    split_ifs with h
    · simp [h]
    · refine iff_of_false ?_ h
      intro hnone
      have hmem : listMin ((touchesOf ray roadBorders traffic).map IPt.offset) ∈
          (touchesOf ray roadBorders traffic).map IPt.offset :=
        listMin_mem (by simpa using h)
      obtain ⟨e, he, heq⟩ := List.mem_map.mp hmem
      have : (touchesOf ray roadBorders traffic).find?
          (fun e => decide (e.offset = listMin
            ((touchesOf ray roadBorders traffic).map IPt.offset))) ≠ none := by
        rw [ne_eq, List.find?_eq_none]
        push_neg
        exact ⟨e, he, by simpa using heq⟩
      exact this hnone
  · rw [touchesOf, List.append_eq_nil, List.filterMap_eq_nil_iff,
      List.flatMap_eq_nil_iff]
    constructor
    · rintro ⟨h1, h2⟩
      refine ⟨h1, fun poly hp j hj => ?_⟩
      have := h2 poly hp
      rw [List.filterMap_eq_nil_iff] at this
      exact this j (List.mem_range.mpr hj)
    · rintro ⟨h1, h2⟩
      refine ⟨h1, fun poly hp => ?_⟩
      rw [List.filterMap_eq_nil_iff]
      exact fun j hj => h2 poly hp j (List.mem_range.mp hj)
  · intro rd h
    rw [getReading] at h
    split_ifs at h with hne
    have hmem := List.mem_of_find?_eq_some h
    have hpred := List.find?_some h
    have hoff : rd.offset =
        listMin ((touchesOf ray roadBorders traffic).map IPt.offset) :=
      of_decide_eq_true hpred
    refine ⟨hmem, fun t ht => ?_⟩
    rw [hoff]
    exact listMin_le (List.mem_map.mpr ⟨t, ht, rfl⟩)

def sensorRay : Pt × Pt := (⟨0, 0⟩, ⟨0, 10⟩)

def sensorBorders : List (Pt × Pt) := [(⟨-5, 4⟩, ⟨5, 4⟩), (⟨-5, 8⟩, ⟨5, 8⟩)]

/-- Witness for C6: a ray crossing two borders at offsets 2/5 and 4/5
returns the nearer hit, whose offset bounds every collected touch. -/
theorem getReading_nearest_witness :
    getReading sensorRay sensorBorders [] = some ⟨0, 4, 2/5⟩ ∧
    (⟨0, 4, 2/5⟩ : IPt) ∈ touchesOf sensorRay sensorBorders [] ∧
    ∀ t ∈ touchesOf sensorRay sensorBorders [], (⟨0, 4, 2/5⟩ : IPt).offset ≤ t.offset := by
  have h1 : getIntersection sensorRay.1 sensorRay.2 ⟨-5, 4⟩ ⟨5, 4⟩ =
      some ⟨0, 4, 2/5⟩ := by
    norm_num [sensorRay, getIntersection, iT, iU, iTTop, iUTop, iBottom, lerp]
  have h2 : getIntersection sensorRay.1 sensorRay.2 ⟨-5, 8⟩ ⟨5, 8⟩ =
      some ⟨0, 8, 4/5⟩ := by
    norm_num [sensorRay, getIntersection, iT, iU, iTTop, iUTop, iBottom, lerp]
  have htouch : touchesOf sensorRay sensorBorders [] =
      [⟨0, 4, 2/5⟩, ⟨0, 8, 4/5⟩] := by
    rw [touchesOf]
    rw [show sensorBorders = [(⟨-5, 4⟩, ⟨5, 4⟩), (⟨-5, 8⟩, ⟨5, 8⟩)] from rfl]
    simp [List.filterMap_cons, h1, h2]
  have heval : getReading sensorRay sensorBorders [] = some ⟨0, 4, 2/5⟩ := by
    rw [getReading, htouch]
    norm_num [listMin, List.find?, min_def]
    intro h
    cases h
  have h := (getReading_nearest sensorRay sensorBorders []).2.2 ⟨0, 4, 2/5⟩ heval
  exact ⟨heval, h.1, h.2⟩

/- ### Road and lane-center bonus (utils_rl.js, Road) -/

/-- One step of the running-minimum loop of laneCenterBonus: the
accumulator none plays the role of the initial Infinity. -/
def optMinStep (m : Option ℚ) (d : ℚ) : Option ℚ :=
  match m with
  | none => some d
  | some m0 => if d < m0 then some d else some m0

/-- The running minimum of a list, starting from Infinity (none). -/
def optMinFold (l : List ℚ) : Option ℚ := l.foldl optMinStep none

theorem optMinFold_go (l : List ℚ) (m0 : ℚ) :
    ∃ d, l.foldl optMinStep (some m0) = some d ∧ (d = m0 ∨ d ∈ l) ∧
      d ≤ m0 ∧ ∀ x ∈ l, d ≤ x := by
  induction l generalizing m0 with
  | nil => exact ⟨m0, rfl, Or.inl rfl, le_refl _, fun x hx => absurd hx (List.not_mem_nil x)⟩
  | cons x xs ih =>
      obtain ⟨d, hd, hmem, hle, hall⟩ := ih (if x < m0 then x else m0)
      have hm1m0 : (if x < m0 then x else m0) ≤ m0 := by
        split
        · exact le_of_lt (by assumption)
        · exact le_refl m0
      have hm1x : (if x < m0 then x else m0) ≤ x := by
        split
        · exact le_refl x
        · exact le_of_not_lt (by assumption)
      have hstep : optMinStep (some m0) x = some (if x < m0 then x else m0) := by
        rw [optMinStep]
        split <;> rfl
      refine ⟨d, ?_, ?_, le_trans hle hm1m0, ?_⟩
      · rw [List.foldl_cons, hstep]
        exact hd
      · rcases hmem with h | h
        · by_cases hx : x < m0
          · rw [if_pos hx] at h
            exact Or.inr (h ▸ List.mem_cons_self x xs)
          · rw [if_neg hx] at h
            exact Or.inl h
        · exact Or.inr (List.mem_cons_of_mem x h)
      · intro y hy
        rcases List.mem_cons.mp hy with h | h
        · exact h ▸ le_trans hle hm1x
        · exact hall y h

theorem optMinFold_spec {l : List ℚ} (h : l ≠ []) :
    ∃ d, optMinFold l = some d ∧ d ∈ l ∧ ∀ x ∈ l, d ≤ x := by
  cases l with
  | nil => exact absurd rfl h
  | cons x xs =>
      obtain ⟨d, hd, hmem, hle, hall⟩ := optMinFold_go xs x
      refine ⟨d, hd, ?_, ?_⟩
      · rcases hmem with h1 | h1
        · exact h1 ▸ List.mem_cons_self x xs
        · exact List.mem_cons_of_mem x h1
      · intro y hy
        rcases List.mem_cons.mp hy with h1 | h1
        · exact h1 ▸ hle
        · exact hall y h1

/-- The Road record of the source; left and right edges are derived. -/
structure Road where
  x : ℚ
  width : ℚ
  laneCount : ℕ
deriving DecidableEq, Repr

/-- Road left edge: x - width / 2. -/
def Road.left (r : Road) : ℚ := r.x - r.width / 2

/-- Road right edge: x + width / 2. -/
def Road.right (r : Road) : ℚ := r.x + r.width / 2

/-- Road.getLaneCenter: left + laneWidth / 2 + min(laneIndex, laneCount-1)
* laneWidth with laneWidth = width / laneCount. -/
def Road.getLaneCenter (r : Road) (laneIndex : ℕ) : ℚ :=
  r.left + r.width / (r.laneCount : ℚ) / 2 +
    ((min laneIndex (r.laneCount - 1) : ℕ) : ℚ) * (r.width / (r.laneCount : ℚ))

theorem road_right_sub_left (r : Road) : r.right - r.left = r.width := by
  rw [Road.right, Road.left]
  ring

/-- The distances from cx to each lane center, in loop order. -/
def laneDists (cx : ℚ) (r : Road) : List ℚ :=
  (List.range r.laneCount).map (fun i => |cx - r.getLaneCenter i|)

/-- The running minimum minDist of laneCenterBonus (none = Infinity). -/
def minLaneDist (cx : ℚ) (r : Road) : Option ℚ := optMinFold (laneDists cx r)

/-- laneCenterBonus from utils_rl.js.  Note that the local variable named
laneWidth in the source is road.right - road.left, the full road width.
The Infinity case (laneCount = 0) yields bonus 0 in the source because
min(Infinity, 1) = 1; it is mapped to 0 here as well. -/
def laneCenterBonus (cx : ℚ) (r : Road) : ℚ :=
  match minLaneDist cx r with
  | none => 0
  | some d => 1/2 * (1 - min (d / (r.right - r.left)) 1)

def roadC1 : Road := ⟨150, 300, 3⟩

/-- Counterexample to claim C1 as stated: on a 3-lane road of width 300
centred at x = 150 (lane centers 50, 150, 250), a car at x = -50 is at
distance 100 from the nearest lane center, exactly one full lane width
(width / laneCount = 100), yet the bonus is 1/3, not 0: the source
divides by road.right - road.left (the full road width), not by the lane
width. -/
theorem laneCenterBonus_counterexample :
    minLaneDist (-50) roadC1 = some 100 ∧
    roadC1.width / (roadC1.laneCount : ℚ) = 100 ∧
    laneCenterBonus (-50) roadC1 = 1/3 := by
  have hdists : laneDists (-50) roadC1 = [100, 200, 300] := by
    rw [laneDists, show List.range roadC1.laneCount = [0, 1, 2] from rfl]
    norm_num [Road.getLaneCenter, Road.left, roadC1]
  have hmin : minLaneDist (-50) roadC1 = some 100 := by
    rw [minLaneDist, hdists]
    norm_num [optMinFold, optMinStep, List.foldl]
  refine ⟨hmin, by norm_num [roadC1], ?_⟩
  simp only [laneCenterBonus, hmin]
  norm_num [roadC1, Road.right, Road.left, min_def]

/-- Claim C1 (amended): for a road with at least one lane and positive
width, laneCenterBonus lies in [0, 1/2], equals 1/2 exactly when the car
x-coordinate equals some lane center, decreases linearly in the distance
d to the nearest lane center scaled by the FULL road width (road.right -
road.left), and equals zero exactly when d is at least the full road
width — not one lane width (road.width / road.laneCount) as claimed. -/
theorem laneCenterBonus_amended (cx : ℚ) (r : Road)
    (hl : 0 < r.laneCount) (hw : 0 < r.width) :
    ∃ d, minLaneDist cx r = some d ∧
      (∃ i, i < r.laneCount ∧ d = |cx - r.getLaneCenter i|) ∧
      (∀ i, i < r.laneCount → d ≤ |cx - r.getLaneCenter i|) ∧
      0 ≤ laneCenterBonus cx r ∧ laneCenterBonus cx r ≤ 1/2 ∧
      (laneCenterBonus cx r = 1/2 ↔ ∃ i, i < r.laneCount ∧ cx = r.getLaneCenter i) ∧
      (laneCenterBonus cx r = 0 ↔ r.right - r.left ≤ d) ∧
      (d ≤ r.right - r.left →
        laneCenterBonus cx r = 1/2 * (1 - d / (r.right - r.left))) := by
  have hne : laneDists cx r ≠ [] := by
    intro hcon
    have hlen : (laneDists cx r).length = 0 := by rw [hcon]; rfl
    rw [laneDists, List.length_map, List.length_range] at hlen
    omega
  have hmemi : ∀ i, i < r.laneCount → |cx - r.getLaneCenter i| ∈ laneDists cx r :=
    fun i hi => List.mem_map.mpr ⟨i, List.mem_range.mpr hi, rfl⟩
  obtain ⟨d, hd, hmem, hall⟩ := optMinFold_spec hne
  have hmd : minLaneDist cx r = some d := hd
  have hmem' : ∃ i, i < r.laneCount ∧ |cx - r.getLaneCenter i| = d := by
    simpa [laneDists, List.mem_map, List.mem_range] using hmem
  obtain ⟨i0, hi0, hdi0⟩ := hmem'
  have hd0 : 0 ≤ d := hdi0 ▸ abs_nonneg _
  have hW : (0:ℚ) < r.right - r.left := by rw [road_right_sub_left]; exact hw
  have hb : laneCenterBonus cx r = 1/2 * (1 - min (d / (r.right - r.left)) 1) := by
    simp only [laneCenterBonus, hmd]
  have hm1 : min (d / (r.right - r.left)) 1 ≤ 1 := min_le_right _ _
  have hm0 : 0 ≤ min (d / (r.right - r.left)) 1 :=
    le_min (div_nonneg hd0 hW.le) zero_le_one
  refine ⟨d, hmd, ⟨i0, hi0, hdi0.symm⟩, ?_, ?_, ?_, ?_, ?_, ?_⟩
  · exact fun i hi => hall _ (hmemi i hi)
  · rw [hb]; linarith
  · rw [hb]; linarith
  · rw [hb]
    constructor
    · intro h
      have hm : min (d / (r.right - r.left)) 1 = 0 := by linarith
      have hdW : d / (r.right - r.left) = 0 := by
        rcases le_or_lt (d / (r.right - r.left)) 1 with hc | hc
        · rwa [min_eq_left hc] at hm
        · rw [min_eq_right hc.le] at hm; norm_num at hm
      have hdz : d = 0 := by
        rcases div_eq_zero_iff.mp hdW with h1 | h1
        · exact h1
        · exact absurd h1 hW.ne'
      refine ⟨i0, hi0, ?_⟩
      have h0 : |cx - r.getLaneCenter i0| = 0 := by rw [hdi0, hdz]
      have := abs_eq_zero.mp h0
      linarith [sub_eq_zero.mp this]
    · rintro ⟨i, hi, hc⟩
      have h0 : |cx - r.getLaneCenter i| = 0 := by rw [hc]; simp
      have hdle : d ≤ 0 := by
        have := hall _ (hmemi i hi)
        rwa [h0] at this
      have hdz : d = 0 := le_antisymm hdle hd0
      rw [hdz]
      norm_num [min_def, zero_div]
  · rw [hb]
    constructor
    · intro h
      have hm : min (d / (r.right - r.left)) 1 = 1 := by linarith
      have h1 : (1:ℚ) ≤ d / (r.right - r.left) := by
        rcases le_or_lt 1 (d / (r.right - r.left)) with hc | hc
        · exact hc
        · rw [min_eq_left hc.le] at hm
          exact le_of_eq hm.symm
      exact (one_le_div hW).mp h1
    · intro h
      have h1 : (1:ℚ) ≤ d / (r.right - r.left) := (one_le_div hW).mpr h
      rw [min_eq_right h1]
      ring
  · intro hle
    rw [hb, min_eq_left ((div_le_one hW).mpr hle)]

/-- Witness for C1 (amended) at a concrete road: the bonus is within
bounds at x = 50 on the counterexample road. -/
theorem laneCenterBonus_amended_witness :
    0 ≤ laneCenterBonus 50 roadC1 ∧ laneCenterBonus 50 roadC1 ≤ 1/2 := by
  obtain ⟨d, hmd, hex, hall, h0, h12, hiff1, hiff0, hlin⟩ :=
    laneCenterBonus_amended 50 roadC1 (by decide) (by norm_num [roadC1])
  exact ⟨h0, h12⟩

/- ### Perceptron network (network.js: Level, NeuralNetwork) -/

/-- A Level of network.js: a weight matrix (weights[j][i] connects input
j to output i) and a bias vector indexed by output. The constructor
guarantees weights.length = inputCount and biases.length = outputCount. -/
structure Level where
  weights : List (List ℚ)
  biases : List ℚ
deriving DecidableEq, Repr

/-- The weighted sum computed by Level.feedForward for output unit i:
sum over j of inputs[j] * weights[j][i] (the loop runs over the level
input count, which equals weights.length). -/
def wsumAt (givenInputs : List ℚ) (lv : Level) (i : ℕ) : ℚ :=
  (List.range lv.weights.length).foldl
    (fun s j => s + givenInputs.getD j 0 * (lv.weights.getD j []).getD i 0) 0

/-- Level.feedForward: output unit i is 1 when its weighted sum strictly
exceeds biases[i] and 0 otherwise. -/
def feedForward (givenInputs : List ℚ) (lv : Level) : List ℚ :=
  (List.range lv.biases.length).map
    (fun i => if lv.biases.getD i 0 < wsumAt givenInputs lv i then 1 else 0)

/-- Claim C7: for fixed weights, biases and inputs the forward pass of a
level is the deterministic function feedForward; output unit j is 1
exactly when the weighted sum strictly exceeds bias[j]; a sum equal to
the bias yields 0; every output entry is 0 or 1. -/
theorem feedForward_threshold (givenInputs : List ℚ) (lv : Level) (j : ℕ)
    (hj : j < lv.biases.length) :
    (feedForward givenInputs lv).length = lv.biases.length ∧
    ((feedForward givenInputs lv).getD j 0 = 1 ↔
      lv.biases.getD j 0 < wsumAt givenInputs lv j) ∧
    (wsumAt givenInputs lv j = lv.biases.getD j 0 →
      (feedForward givenInputs lv).getD j 0 = 0) ∧
    ((feedForward givenInputs lv).getD j 0 = 0 ∨
      (feedForward givenInputs lv).getD j 0 = 1) := by
  have hget : (feedForward givenInputs lv).getD j 0 =
      if lv.biases.getD j 0 < wsumAt givenInputs lv j then 1 else 0 := by
    rw [feedForward]
    exact getD_range_map _ _ hj
  refine ⟨by simp [feedForward], ?_, ?_, ?_⟩
  · rw [hget]
    split_ifs with h
    · exact iff_of_true rfl h
    · exact iff_of_false (by norm_num) h
  · intro heq
    rw [hget, if_neg (by rw [heq]; exact lt_irrefl _)]
  · rw [hget]
    split_ifs
    · exact Or.inr rfl
    · exact Or.inl rfl

def levelC7 : Level := ⟨[[1]], [1]⟩

/-- Witness for C7: a single unit with weight 1 and bias 1 on input [1]
has weighted sum exactly equal to the bias and outputs 0. -/
theorem feedForward_threshold_witness :
    (feedForward [1] levelC7).getD 0 0 = 0 := by
  have h := feedForward_threshold [1] levelC7 0 (by decide)
  exact h.2.2.1 (by norm_num [wsumAt, levelC7, List.foldl])

/- ### NeuralNetwork.mutate (network.js) -/

/-- NeuralNetwork.mutate on one level.  Each bias i is replaced with
lerp(bias, random draw, amount) and each weight (i, j) with
lerp(weight, random draw, amount); rbl i and rwl i j are the raw
Math.random() outputs, one fresh draw per parameter, and a draw r enters
the update as r * 2 - 1. -/
def mutateLevel (amount : ℚ) (rbl : ℕ → ℚ) (rwl : ℕ → ℕ → ℚ)
    (lv : Level) : Level :=
  { biases := (List.range lv.biases.length).map
      (fun i => lerp (lv.biases.getD i 0) (rbl i * 2 - 1) amount),
    weights := (List.range lv.weights.length).map
      (fun i => (List.range ((lv.weights.getD i []).length)).map
        (fun j => lerp ((lv.weights.getD i []).getD j 0) (rwl i j * 2 - 1) amount)) }

/-- NeuralNetwork.mutate over all levels of a network. -/
def mutate (net : List Level) (amount : ℚ) (rb : ℕ → ℕ → ℚ)
    (rw : ℕ → ℕ → ℕ → ℚ) : List Level :=
  (List.range net.length).map
    (fun li => mutateLevel amount (rb li) (rw li) (net.getD li ⟨[], []⟩))

theorem mutateLevel_zero (rbl : ℕ → ℚ) (rwl : ℕ → ℕ → ℚ) (lv : Level) :
    mutateLevel 0 rbl rwl lv = lv := by
  have hlerp : ∀ a b : ℚ, lerp a b 0 = a := by
    intro a b
    rw [lerp]
    ring
  rw [mutateLevel]
  cases lv with
  | mk w b =>
      congr 1
      · simp only
        have : ∀ i ∈ List.range w.length,
            (List.range ((w.getD i []).length)).map
              (fun j => lerp ((w.getD i []).getD j 0) (rwl i j * 2 - 1) 0) =
            w.getD i [] := by
          intro i hi
          calc (List.range ((w.getD i []).length)).map
                (fun j => lerp ((w.getD i []).getD j 0) (rwl i j * 2 - 1) 0)
              = (List.range ((w.getD i []).length)).map
                (fun j => (w.getD i []).getD j 0) := by
                  apply List.map_congr_left
                  intro j hj
                  exact hlerp _ _
            _ = w.getD i [] := range_map_getD _ _
        calc (List.range w.length).map (fun i =>
              (List.range ((w.getD i []).length)).map
                (fun j => lerp ((w.getD i []).getD j 0) (rwl i j * 2 - 1) 0))
            = (List.range w.length).map (fun i => w.getD i []) := by
              exact List.map_congr_left this
          _ = w := range_map_getD _ _
      · simp only
        calc (List.range b.length).map
              (fun i => lerp (b.getD i 0) (rbl i * 2 - 1) 0)
            = (List.range b.length).map (fun i => b.getD i 0) := by
              apply List.map_congr_left
              intro i hi
              exact hlerp _ _
          _ = b := range_map_getD _ _

/-- Claim C8: mutate with amount 0 leaves every weight and bias of every
level unchanged; with amount 1 every bias and weight becomes the fresh
draw r * 2 - 1 for its own random output r (a value independent of the
old parameter); for any amount each parameter v — every bias and every
weight — becomes lerp(v, draw, amount); and each draw lies in [-1, 1]
when the raw random output lies in [0, 1). -/
theorem mutate_boundary (net : List Level) (rb : ℕ → ℕ → ℚ)
    (rw : ℕ → ℕ → ℕ → ℚ) :
    mutate net 0 rb rw = net ∧
    (∀ li i, li < net.length → i < (net.getD li ⟨[], []⟩).biases.length →
      ((mutate net 1 rb rw).getD li ⟨[], []⟩).biases.getD i 0 = rb li i * 2 - 1) ∧
    (∀ li i j, li < net.length → i < (net.getD li ⟨[], []⟩).weights.length →
      j < ((net.getD li ⟨[], []⟩).weights.getD i []).length →
      (((mutate net 1 rb rw).getD li ⟨[], []⟩).weights.getD i []).getD j 0 =
        rw li i j * 2 - 1) ∧
    (∀ amount li i, li < net.length → i < (net.getD li ⟨[], []⟩).biases.length →
      ((mutate net amount rb rw).getD li ⟨[], []⟩).biases.getD i 0 =
        lerp ((net.getD li ⟨[], []⟩).biases.getD i 0) (rb li i * 2 - 1) amount) ∧
    (∀ amount li i j, li < net.length →
      i < (net.getD li ⟨[], []⟩).weights.length →
      j < ((net.getD li ⟨[], []⟩).weights.getD i []).length →
      (((mutate net amount rb rw).getD li ⟨[], []⟩).weights.getD i []).getD j 0 =
        lerp (((net.getD li ⟨[], []⟩).weights.getD i []).getD j 0)
          (rw li i j * 2 - 1) amount) ∧
    (∀ r : ℚ, 0 ≤ r → r < 1 → -1 ≤ r * 2 - 1 ∧ r * 2 - 1 ≤ 1) := by
  have hlvl : ∀ amount li, li < net.length →
      (mutate net amount rb rw).getD li ⟨[], []⟩ =
        mutateLevel amount (rb li) (rw li) (net.getD li ⟨[], []⟩) := by
    intro amount li hli
    rw [mutate]
    exact getD_range_map _ _ hli
  refine ⟨?_, ?_, ?_, ?_, ?_, ?_⟩
  · have : mutate net 0 rb rw =
        (List.range net.length).map (fun li => net.getD li ⟨[], []⟩) := by
      rw [mutate]
      apply List.map_congr_left
      intro li hli
      exact mutateLevel_zero _ _ _
    rw [this, range_map_getD]
  · intro li i hli hi
    rw [hlvl 1 li hli, mutateLevel]
    simp only
    rw [getD_range_map _ _ hi, lerp]
    ring
  · intro li i j hli hi hj
    rw [hlvl 1 li hli, mutateLevel]
    simp only
    rw [getD_range_map _ _ hi, getD_range_map _ _ hj, lerp]
    ring
  · intro amount li i hli hi
    rw [hlvl amount li hli, mutateLevel]
    simp only
    rw [getD_range_map _ _ hi]
  · intro amount li i j hli hi hj
    rw [hlvl amount li hli, mutateLevel]
    simp only
    rw [getD_range_map _ _ hi, getD_range_map _ _ hj]
  · intro r h0 h1
    constructor <;> linarith

def netC8 : List Level := [⟨[[1/3]], [1/2]⟩]

/-- Witness for C8: mutating the one-parameter network with amount 1 and
raw random output 1/4 replaces the bias 1/2 with 1/4 * 2 - 1 = -1/2. -/
theorem mutate_boundary_witness :
    ((mutate netC8 1 (fun li i => 1/4) (fun li i j => 3/4)).getD 0
      ⟨[], []⟩).biases.getD 0 0 = (1:ℚ)/4 * 2 - 1 :=
  (mutate_boundary netC8 (fun li i => 1/4) (fun li i j => 3/4)).2.1 0 0
    (by decide) (by decide)

/- ### RLAgent (network.js): state key, Q-table, selectAction -/

/-- JavaScript Math.round: round half toward positive infinity. -/
def jsRound (q : ℚ) : ℤ := ⌊q + 1/2⌋

/-- RLAgent._stateKey of network.js over rationals: the first five
components (sensor readings) are rounded to one decimal
(Math.round(x*10)/10, then formatted by toFixed(1)), the rest to two
decimals (Math.round(x*100)/100); the comma-joined key string is
canonically encoded as the list of rounded components. -/
def stateKey (state : List ℚ) : List ℚ :=
  (List.range state.length).map (fun i =>
    if i < 5 then ((jsRound (state.getD i 0 * 10) : ℚ)) / 10
    else ((jsRound (state.getD i 0 * 100) : ℚ)) / 100)

/-- An Experience record {state, action, reward, nextState, done}. -/
structure Exp where
  state : List ℚ
  action : ℕ
  reward : ℚ
  nextState : List ℚ
  done : Bool
deriving DecidableEq, Repr

def defaultExp : Exp := ⟨[], 0, 0, [], false⟩

/-- The RLAgent of network.js; the Q-table object is an association list
from discretized state keys to action-value rows. -/
structure Agent where
  stateSize : ℕ
  actionSize : ℕ
  memory : List Exp
  gamma : ℚ
  epsilon : ℚ
  epsilonMin : ℚ
  epsilonDecay : ℚ
  learningRate : ℚ
  batchSize : ℕ
  qTable : List (List ℚ × List ℚ)
deriving DecidableEq, Repr

/-- Array(actionSize).fill(0). -/
def zeros (n : ℕ) : List ℚ := List.replicate n 0

/-- Property lookup this.qTable[key]. -/
def qlookup : List (List ℚ × List ℚ) → List ℚ → Option (List ℚ)
  | [], _ => none
  | kv :: rest, k => if kv.1 = k then some kv.2 else qlookup rest k

/-- Property assignment this.qTable[key] = v for a key already present
(replaces the first binding). -/
def qupdate : List (List ℚ × List ℚ) → List ℚ → List ℚ → List (List ℚ × List ℚ)
  | [], _, _ => []
  | kv :: rest, k, v => if kv.1 = k then (k, v) :: rest else kv :: qupdate rest k v

theorem qlookup_qupdate_self (qt : List (List ℚ × List ℚ)) (k v : List ℚ) :
    qlookup (qupdate qt k v) k =
      if (qlookup qt k).isSome then some v else none := by
  induction qt with
  | nil => simp [qupdate, qlookup]
  | cons kv rest ih =>
      by_cases h : kv.1 = k
      · simp [qupdate, qlookup, h]
      · simp [qupdate, qlookup, h, ih]

theorem qlookup_qupdate_ne (qt : List (List ℚ × List ℚ)) (k v k' : List ℚ)
    (h : k' ≠ k) :
    qlookup (qupdate qt k v) k' = qlookup qt k' := by
  induction qt with
  | nil => simp [qupdate]
  | cons kv rest ih =>
      by_cases h1 : kv.1 = k
      · have hk : ¬ (k = k') := fun hc => h hc.symm
        simp [qupdate, qlookup, h1, hk]
      · simp only [qupdate, if_neg h1]
        by_cases h2 : kv.1 = k'
        · simp [qlookup, h2]
        · simp [qlookup, h2, ih]

theorem qlookup_some_mem (qt : List (List ℚ × List ℚ)) (k v : List ℚ)
    (h : qlookup qt k = some v) : (k, v) ∈ qt := by
  induction qt with
  | nil => cases h
  | cons kv rest ih =>
      by_cases h1 : kv.1 = k
      · rw [qlookup, if_pos h1] at h
        injection h with h
        have hkv : kv = (k, v) := by
          cases kv
          cases h1
          cases h
          rfl
        exact hkv ▸ List.mem_cons_self kv rest
      · rw [qlookup, if_neg h1] at h
        exact List.mem_cons_of_mem kv (ih h)

/-- The qValues row of selectAction: the stored row for the discretized
key, or a fresh zero row if the key is unseen. -/
def qRow (a : Agent) (state : List ℚ) : List ℚ :=
  (qlookup a.qTable (stateKey state)).getD (zeros a.actionSize)

/-- The tied best actions: qValues.map((q, i) => q === maxQ ? i : -1)
.filter(i => i !== -1), i.e. the indices whose value equals the max. -/
def bestActions (row : List ℚ) : List ℕ :=
  (List.range row.length).filter (fun i => decide (row.getD i 0 = listMax row))

/-- RLAgent.selectAction of network.js.  r1 is the Math.random() output
compared against epsilon; r2 is the Math.random() output consumed by
whichever branch runs (exploration index or tie-break index). -/
def selectAction (a : Agent) (state : List ℚ) (r1 r2 : ℚ) : ℕ :=
  if r1 < a.epsilon then Int.toNat ⌊r2 * (a.actionSize : ℚ)⌋
  else (bestActions (qRow a state)).getD
    (Int.toNat ⌊r2 * ((bestActions (qRow a state)).length : ℚ)⌋) 0

theorem floor_unit_mul_lt {r : ℚ} {n : ℕ} (h0 : 0 ≤ r) (h1 : r < 1)
    (hn : 0 < n) : Int.toNat ⌊r * (n : ℚ)⌋ < n := by
  have hq : (0:ℚ) < (n : ℚ) := by exact_mod_cast hn
  have hlt : ⌊r * (n : ℚ)⌋ < (n : ℤ) := by
    rw [Int.floor_lt]
    push_cast
    nlinarith
  rw [Int.toNat_lt' (by omega)]
  exact hlt

theorem floor_unit_div_mul {k n : ℕ} (hk : k < n) :
    Int.toNat ⌊((k : ℚ) / (n : ℚ)) * (n : ℚ)⌋ = k := by
  have hn : (n : ℚ) ≠ 0 := Nat.cast_ne_zero.mpr (by omega)
  rw [div_mul_cancel₀ _ hn]
  simp

/-- rl_agent.js _stateKey over rationals: every component is
x.toFixed(2), i.e. the value rounded to two decimals. -/
def rlStateKeyQ (state : List ℚ) : List ℚ :=
  state.map (fun x => (jsRound (x * 100) : ℚ) / 100)

/-- The qValues row of rl_agent.js selectAction: the stored row for the
rl-discretized key, or a fresh zero row if the key is unseen. -/
def rlRow (a : Agent) (state : List ℚ) : List ℚ :=
  (qlookup a.qTable (rlStateKeyQ state)).getD (zeros a.actionSize)

def qIndexOfAux : List ℚ → ℚ → Option ℕ
  | [], _ => none
  | x :: xs, v =>
      if x = v then some 0 else (qIndexOfAux xs v).map (fun i => i + 1)

/-- Array.prototype.indexOf on a rational row: the first index holding
the value, or -1 when absent. -/
def qIndexOf (l : List ℚ) (v : ℚ) : ℤ :=
  match qIndexOfAux l v with
  | some i => (i : ℤ)
  | none => -1

/-- selectAction of rl_agent.js: the greedy branch returns
qValues.indexOf(Math.max(...qValues)) — always the first maximal index —
and consumes no tie-break draw. -/
def rlSelectAction (a : Agent) (state : List ℚ) (r1 r2 : ℚ) : ℤ :=
  if r1 < a.epsilon then (Int.toNat ⌊r2 * (a.actionSize : ℚ)⌋ : ℤ)
  else qIndexOf (rlRow a state) (listMax (rlRow a state))

theorem qIndexOf_spec (l : List ℚ) (v : ℚ) (hv : v ∈ l) :
    ∃ i : ℕ, qIndexOf l v = (i : ℤ) ∧ i < l.length ∧ l.getD i 0 = v ∧
      ∀ j, j < i → l.getD j 0 ≠ v := by
  induction l with
  | nil => cases hv
  | cons x xs ih =>
      by_cases hx : x = v
      · refine ⟨0, ?_, by simp, by simpa using hx,
          fun j hj => absurd hj (by omega)⟩
        simp [qIndexOf, qIndexOfAux, hx]
      · have hvxs : v ∈ xs := by
          rcases List.mem_cons.mp hv with h | h
          · exact absurd h.symm hx
          · exact h
        obtain ⟨i, hi1, hi2, hi3, hi4⟩ := ih hvxs
        have haux : qIndexOfAux xs v = some i := by
          rw [qIndexOf] at hi1
          cases h : qIndexOfAux xs v with
          | none =>
              rw [h] at hi1
              have hneg : (-1 : ℤ) = (i : ℤ) := hi1
              exact absurd hneg (by omega)
          | some i0 =>
              rw [h] at hi1
              have heq : ((i0 : ℕ) : ℤ) = (i : ℤ) := hi1
              have hii : i0 = i := by omega
              exact congrArg some hii
        refine ⟨i + 1, ?_, ?_, ?_, ?_⟩
        · simp [qIndexOf, qIndexOfAux, hx, haux]
        · simp only [List.length_cons]
          omega
        · rw [List.getD_cons_succ]
          exact hi3
        · intro j hj
          cases j with
          | zero =>
              rw [List.getD_cons_zero]
              exact hx
          | succ j0 =>
              rw [List.getD_cons_succ]
              exact hi4 j0 (by omega)

/-- Claim C2 (amended): the network.js selectAction explores with
probability epsilon (when the epsilon draw r1 falls below epsilon it
returns the uniform index floor(r2 * actionSize), which ranges over all
of [0, actionSize)); otherwise it discretizes the state, looks up the
row (zero row if the key is unseen), and returns an index whose value is
the row maximum, with ties broken uniformly among the tied indices: the
result is bestActions[floor(r2 * bestActions.length)] and every tied
index is returned for a suitable draw.  The rl_agent.js variant explores
identically, but its greedy branch returns qValues.indexOf of the
maximum — always the FIRST maximal index, the same for every tie-break
draw. -/
theorem selectAction_epsilon_greedy (a : Agent) (state : List ℚ) (r1 r2 : ℚ)
    (hwf : ∀ kv ∈ a.qTable, kv.2.length = a.actionSize)
    (ha : 0 < a.actionSize) (h0 : 0 ≤ r2) (h1 : r2 < 1) :
    (r1 < a.epsilon →
      selectAction a state r1 r2 = Int.toNat ⌊r2 * (a.actionSize : ℚ)⌋ ∧
      selectAction a state r1 r2 < a.actionSize ∧
      ∀ k, k < a.actionSize →
        selectAction a state r1 ((k : ℚ) / (a.actionSize : ℚ)) = k) ∧
    (¬ r1 < a.epsilon →
      (qlookup a.qTable (stateKey state) = none →
        qRow a state = zeros a.actionSize) ∧
      (qRow a state).length = a.actionSize ∧
      bestActions (qRow a state) ≠ [] ∧
      selectAction a state r1 r2 = (bestActions (qRow a state)).getD
        (Int.toNat ⌊r2 * ((bestActions (qRow a state)).length : ℚ)⌋) 0 ∧
      selectAction a state r1 r2 < a.actionSize ∧
      (qRow a state).getD (selectAction a state r1 r2) 0 =
        listMax (qRow a state) ∧
      ∀ k, k < (bestActions (qRow a state)).length →
        selectAction a state r1
            ((k : ℚ) / ((bestActions (qRow a state)).length : ℚ)) =
          (bestActions (qRow a state)).getD k 0) ∧
    (r1 < a.epsilon →
      rlSelectAction a state r1 r2 =
        ((Int.toNat ⌊r2 * (a.actionSize : ℚ)⌋ : ℕ) : ℤ)) ∧
    (¬ r1 < a.epsilon →
      rlSelectAction a state r1 r2 =
        qIndexOf (rlRow a state) (listMax (rlRow a state)) ∧
      (∃ i : ℕ, rlSelectAction a state r1 r2 = (i : ℤ) ∧ i < a.actionSize ∧
        (rlRow a state).getD i 0 = listMax (rlRow a state) ∧
        ∀ j, j < i → (rlRow a state).getD j 0 ≠ listMax (rlRow a state)) ∧
      ∀ r3 : ℚ, rlSelectAction a state r1 r3 = rlSelectAction a state r1 r2) := by
  refine ⟨?_, ?_, ?_, ?_⟩
  · intro hexp
    refine ⟨by rw [selectAction, if_pos hexp], ?_, ?_⟩
    · rw [selectAction, if_pos hexp]
      exact floor_unit_mul_lt h0 h1 ha
    · intro k hk
      rw [selectAction, if_pos hexp]
      exact floor_unit_div_mul hk
  · intro hgreedy
    have hrowlen : (qRow a state).length = a.actionSize := by
      rw [qRow]
      cases hq : qlookup a.qTable (stateKey state) with
      | none => simp [zeros]
      | some v =>
          simp only [Option.getD_some]
          exact hwf (stateKey state, v) (qlookup_some_mem _ _ _ hq)
    have hrowne : qRow a state ≠ [] := by
      intro hcon
      rw [hcon] at hrowlen
      simp at hrowlen
      omega
    have hmaxmem : listMax (qRow a state) ∈ qRow a state := listMax_mem hrowne
    obtain ⟨i0, hi0, hv0⟩ := List.mem_iff_getElem.mp hmaxmem
    have hbne : bestActions (qRow a state) ≠ [] := by
      have hmem : i0 ∈ bestActions (qRow a state) := by
        rw [bestActions, List.mem_filter]
        refine ⟨List.mem_range.mpr hi0, ?_⟩
        rw [List.getD_eq_getElem _ _ hi0]
        exact decide_eq_true hv0
      intro hcon
      rw [hcon] at hmem
      cases hmem
    have hblen : 0 < (bestActions (qRow a state)).length :=
      List.length_pos.mpr hbne
    have hbprop : ∀ x ∈ bestActions (qRow a state),
        x < (qRow a state).length ∧
        (qRow a state).getD x 0 = listMax (qRow a state) := by
      intro x hx
      rw [bestActions, List.mem_filter, List.mem_range] at hx
      exact ⟨hx.1, of_decide_eq_true hx.2⟩
    have hsel : selectAction a state r1 r2 = (bestActions (qRow a state)).getD
        (Int.toNat ⌊r2 * ((bestActions (qRow a state)).length : ℚ)⌋) 0 := by
      rw [selectAction, if_neg hgreedy]
    have hidx : Int.toNat ⌊r2 * ((bestActions (qRow a state)).length : ℚ)⌋ <
        (bestActions (qRow a state)).length :=
      floor_unit_mul_lt h0 h1 hblen
    have hselmem : selectAction a state r1 r2 ∈ bestActions (qRow a state) := by
      rw [hsel, List.getD_eq_getElem _ _ hidx]
      exact List.getElem_mem hidx
    refine ⟨?_, hrowlen, hbne, hsel, ?_, ?_, ?_⟩
    · intro hqnone
      rw [qRow, hqnone]
      rfl
    · have := (hbprop _ hselmem).1
      omega
    · exact (hbprop _ hselmem).2
    · intro k hk
      rw [selectAction, if_neg hgreedy, floor_unit_div_mul hk]
  · intro hexp
    rw [rlSelectAction, if_pos hexp]
  · intro hgreedy
    have hrlen : (rlRow a state).length = a.actionSize := by
      rw [rlRow]
      cases hq : qlookup a.qTable (rlStateKeyQ state) with
      | none => simp [zeros]
      | some v =>
          simp only [Option.getD_some]
          exact hwf (rlStateKeyQ state, v) (qlookup_some_mem _ _ _ hq)
    have hrne : rlRow a state ≠ [] := by
      intro hcon
      rw [hcon] at hrlen
      simp at hrlen
      omega
    have hmm : listMax (rlRow a state) ∈ rlRow a state := listMax_mem hrne
    obtain ⟨i, hi1, hi2, hi3, hi4⟩ := qIndexOf_spec _ _ hmm
    refine ⟨by rw [rlSelectAction, if_neg hgreedy],
      ⟨i, ?_, by omega, hi3, hi4⟩, ?_⟩
    · rw [rlSelectAction, if_neg hgreedy]
      exact hi1
    · intro r3
      rw [rlSelectAction, if_neg hgreedy, rlSelectAction, if_neg hgreedy]

def stateC2 : List ℚ := [0, 0, 0, 0, 0, 0, 0, 0, 0]

def agentC2 : Agent :=
  { stateSize := 9, actionSize := 3, memory := [], gamma := 19/20,
    epsilon := 0, epsilonMin := 1/20, epsilonDecay := 999/1000,
    learningRate := 1/200, batchSize := 32,
    qTable := [(stateKey stateC2, [1, 1, 0])] }

def agentC2rl : Agent :=
  { stateSize := 9, actionSize := 3, memory := [], gamma := 19/20,
    epsilon := 0, epsilonMin := 1/100, epsilonDecay := 199/200,
    learningRate := 1/1000, batchSize := 32,
    qTable := [(rlStateKeyQ stateC2, [1, 1, 0])] }

/-- Counterexample to claim C2 as stated: the claim also cites the
rl_agent.js selectAction, whose greedy branch is
qValues.indexOf(Math.max(...qValues)).  With the tied row [1, 1, 0]
(indices 0 and 1 both maximal) it returns index 0 at tie-break draws 1/2
and 99/100 alike — draws at which a uniform choice among the two tied
indices yields index 1, as the network.js variant indeed returns — so
ties are not broken by uniform random choice rather than always the
first index in that cited variant. -/
theorem selectAction_first_index_counterexample :
    qlookup agentC2rl.qTable (rlStateKeyQ stateC2) = some [1, 1, 0] ∧
    listMax [1, 1, 0] = 1 ∧
    rlSelectAction agentC2rl stateC2 0 (1/2) = 0 ∧
    rlSelectAction agentC2rl stateC2 0 (99/100) = 0 ∧
    selectAction agentC2 stateC2 0 (1/2) = 1 := by
  have hlook : qlookup agentC2rl.qTable (rlStateKeyQ stateC2) =
      some [1, 1, 0] := by
    simp [agentC2rl, qlookup]
  have hrow : rlRow agentC2rl stateC2 = [1, 1, 0] := by
    rw [rlRow, hlook]
    rfl
  have hmax : listMax [1, 1, 0] = (1:ℚ) := by
    norm_num [listMax, List.foldl, max_def]
  have hidx : qIndexOf [1, 1, 0] 1 = 0 := by
    norm_num [qIndexOf, qIndexOfAux]
  have hrl : ∀ r2 : ℚ, rlSelectAction agentC2rl stateC2 0 r2 = 0 := by
    intro r2
    rw [rlSelectAction, if_neg (by norm_num [agentC2rl]), hrow, hmax, hidx]
  have hqrow : qRow agentC2 stateC2 = [1, 1, 0] := by
    rw [qRow]
    simp [agentC2, qlookup]
  have hbest : bestActions [1, 1, 0] = [0, 1] := by
    rw [bestActions, hmax]
    rw [show ([1, 1, 0] : List ℚ).length = 3 from rfl,
      show List.range 3 = [0, 1, 2] from rfl]
    norm_num [List.filter, List.getD_cons_zero, List.getD_cons_succ]
  refine ⟨hlook, hmax, hrl (1/2), hrl (99/100), ?_⟩
  rw [selectAction, if_neg (by norm_num [agentC2]), hqrow, hbest]
  norm_num [List.getD_cons_zero, List.getD_cons_succ]

/-- Witness for C2 (amended): with epsilon 0 and a stored row [1, 1, 0]
the network.js greedy branch returns an action below actionSize whose
value is the row maximum, and the rl_agent.js greedy result is the same
for distinct tie-break draws. -/
theorem selectAction_epsilon_greedy_witness :
    selectAction agentC2 stateC2 0 (1/2) < agentC2.actionSize ∧
    (qRow agentC2 stateC2).getD (selectAction agentC2 stateC2 0 (1/2)) 0 =
      listMax (qRow agentC2 stateC2) ∧
    rlSelectAction agentC2 stateC2 0 0 = rlSelectAction agentC2 stateC2 0 (1/2) := by
  have hfull := selectAction_epsilon_greedy agentC2 stateC2 0 (1/2)
    (by
      intro kv hkv
      simp only [agentC2, List.mem_singleton] at hkv
      subst hkv
      rfl)
    (by decide) (by norm_num) (by norm_num)
  have h := hfull.2.1 (by norm_num [agentC2])
  have hrl := hfull.2.2.2 (by norm_num [agentC2])
  exact ⟨h.2.2.2.2.1, h.2.2.2.2.2.1, hrl.2.2 0⟩

/- ### RLAgent.storeExperience (network.js and rl_agent.js) -/

/-- storeExperience of network.js: push, then if length exceeds 10000
keep the most recent 8000 (memory.slice(-8000)). -/
def storeExperience (memory : List Exp) (e : Exp) : List Exp :=
  if 10000 < (memory ++ [e]).length then
    (memory ++ [e]).drop ((memory ++ [e]).length - 8000)
  else memory ++ [e]

/-- storeExperience of rl_agent.js: push, then if length exceeds 10000
evict the single oldest entry (memory.shift()). -/
def storeExperienceShift (memory : List Exp) (e : Exp) : List Exp :=
  if 10000 < (memory ++ [e]).length then (memory ++ [e]).tail
  else memory ++ [e]

theorem storeExperience_step (memory : List Exp) (e : Exp)
    (h : memory.length ≤ 10000) :
    (storeExperience memory e).length ≤ 10000 ∧
    (storeExperience memory e).getLast? = some e := by
  rw [storeExperience]
  split_ifs with hc
  · rw [List.length_append, List.length_singleton] at hc
    constructor
    · rw [List.length_drop, List.length_append, List.length_singleton]
      omega
    · rw [List.drop_append_of_le_length
        (by rw [List.length_append, List.length_singleton]; omega)]
      exact List.getLast?_concat _
  · rw [List.length_append, List.length_singleton] at hc
    refine ⟨?_, List.getLast?_concat _⟩
    rw [List.length_append, List.length_singleton]
    omega

theorem storeExperienceShift_step (memory : List Exp) (e : Exp)
    (h : memory.length ≤ 10000) :
    (storeExperienceShift memory e).length ≤ 10000 ∧
    (storeExperienceShift memory e).getLast? = some e := by
  rw [storeExperienceShift]
  split_ifs with hc
  · rw [List.length_append, List.length_singleton] at hc
    cases memory with
    | nil => simp at hc
    | cons m rest =>
        constructor
        · rw [List.cons_append, List.tail_cons, List.length_append,
            List.length_singleton]
          simp only [List.length_cons] at h
          omega
        · rw [List.cons_append, List.tail_cons]
          exact List.getLast?_concat _
  · rw [List.length_append, List.length_singleton] at hc
    refine ⟨?_, List.getLast?_concat _⟩
    rw [List.length_append, List.length_singleton]
    omega

/-- The buffer contents after a sequence of storeExperience calls on an
initially empty memory (network.js variant). -/
def storeFold (es : List Exp) : List Exp := es.foldl storeExperience []

/-- The buffer contents after a sequence of storeExperienceShift calls on
an initially empty memory (rl_agent.js variant). -/
def storeShiftFold (es : List Exp) : List Exp := es.foldl storeExperienceShift []

theorem storeFold_aux (es : List Exp) (acc : List Exp)
    (h : acc.length ≤ 10000) :
    (es.foldl storeExperience acc).length ≤ 10000 := by
  induction es generalizing acc with
  | nil => exact h
  | cons e rest ih =>
      rw [List.foldl_cons]
      exact ih _ (storeExperience_step acc e h).1

theorem storeShiftFold_aux (es : List Exp) (acc : List Exp)
    (h : acc.length ≤ 10000) :
    (es.foldl storeExperienceShift acc).length ≤ 10000 := by
  induction es generalizing acc with
  | nil => exact h
  | cons e rest ih =>
      rw [List.foldl_cons]
      exact ih _ (storeExperienceShift_step acc e h).1

/-- Claim C3: after any sequence of insertions starting from the empty
buffer, the buffer length never exceeds 10000 in either variant (the
network.js variant trims to the most recent 8000 on overflow, the
rl_agent.js variant evicts the single oldest entry), and the experience
just stored is always the last element of the buffer. -/
theorem storeExperience_bound (es : List Exp) (e : Exp) :
    (storeFold (es ++ [e])).length ≤ 10000 ∧
    (storeFold (es ++ [e])).getLast? = some e ∧
    (storeShiftFold (es ++ [e])).length ≤ 10000 ∧
    (storeShiftFold (es ++ [e])).getLast? = some e := by
  have h1 : storeFold (es ++ [e]) = storeExperience (storeFold es) e := by
    rw [storeFold, storeFold, List.foldl_append]
    rfl
  have h2 : storeShiftFold (es ++ [e]) =
      storeExperienceShift (storeShiftFold es) e := by
    rw [storeShiftFold, storeShiftFold, List.foldl_append]
    rfl
  have hb1 : (storeFold es).length ≤ 10000 :=
    storeFold_aux es [] (by simp)
  have hb2 : (storeShiftFold es).length ≤ 10000 :=
    storeShiftFold_aux es [] (by simp)
  obtain ⟨ha1, ha2⟩ := storeExperience_step (storeFold es) e hb1
  obtain ⟨hc1, hc2⟩ := storeExperienceShift_step (storeShiftFold es) e hb2
  exact ⟨h1 ▸ ha1, h1 ▸ ha2, h2 ▸ hc1, h2 ▸ hc2⟩

/- ### RLAgent.learn (network.js) -/

/-- The statement if (!this.qTable[key]) this.qTable[key] =
Array(actionSize).fill(0): seed a zero row for an unseen key. -/
def qseed (actionSize : ℕ) (qt : List (List ℚ × List ℚ)) (k : List ℚ) :
    List (List ℚ × List ℚ) :=
  if (qlookup qt k).isNone then (k, zeros actionSize) :: qt else qt

theorem qseed_self (actionSize : ℕ) (qt : List (List ℚ × List ℚ))
    (k : List ℚ) :
    qlookup (qseed actionSize qt k) k =
      some ((qlookup qt k).getD (zeros actionSize)) := by
  rw [qseed]
  cases h : qlookup qt k with
  | none => simp [qlookup]
  | some v => simp [qlookup, h]

theorem qseed_other (actionSize : ℕ) (qt : List (List ℚ × List ℚ))
    (k k' : List ℚ) (h : k' ≠ k) :
    qlookup (qseed actionSize qt k) k' = qlookup qt k' := by
  rw [qseed]
  split_ifs with h1
  · rw [qlookup, if_neg (Ne.symm h)]
  · rfl

/-- One iteration of the batch loop of RLAgent.learn: seed rows for the
two keys, compute target = reward + (done ? 0 : gamma * max of the
next-state row) and add learningRate * (target - old) to entry
[key][action]. -/
def qstep (actionSize : ℕ) (gamma lr : ℚ) (qt : List (List ℚ × List ℚ))
    (e : Exp) : List (List ℚ × List ℚ) :=
  let qt2 := qseed actionSize (qseed actionSize qt (stateKey e.state))
    (stateKey e.nextState)
  let row := (qlookup qt2 (stateKey e.state)).getD []
  let nrow := (qlookup qt2 (stateKey e.nextState)).getD []
  let target := e.reward + (if e.done then 0 else gamma * listMax nrow)
  let old := row.getD e.action 0
  qupdate qt2 (stateKey e.state) (row.set e.action (old + lr * (target - old)))

theorem qstep_lookup (actionSize : ℕ) (gamma lr : ℚ)
    (qt : List (List ℚ × List ℚ)) (e : Exp) :
    qlookup (qstep actionSize gamma lr qt e) (stateKey e.state) =
      some (((qlookup qt (stateKey e.state)).getD (zeros actionSize)).set
        e.action
        ((((qlookup qt (stateKey e.state)).getD (zeros actionSize)).getD
            e.action 0) +
          lr * ((e.reward + (if e.done then 0 else gamma * listMax
              ((qlookup qt (stateKey e.nextState)).getD (zeros actionSize)))) -
            (((qlookup qt (stateKey e.state)).getD (zeros actionSize)).getD
              e.action 0)))) ∧
    (stateKey e.nextState ≠ stateKey e.state →
      qlookup (qstep actionSize gamma lr qt e) (stateKey e.nextState) =
        some ((qlookup qt (stateKey e.nextState)).getD (zeros actionSize))) ∧
    ∀ k, k ≠ stateKey e.state → k ≠ stateKey e.nextState →
      qlookup (qstep actionSize gamma lr qt e) k = qlookup qt k := by
  have hqt2K : qlookup (qseed actionSize (qseed actionSize qt
      (stateKey e.state)) (stateKey e.nextState)) (stateKey e.state) =
      some ((qlookup qt (stateKey e.state)).getD (zeros actionSize)) := by
    by_cases hkn : stateKey e.nextState = stateKey e.state
    · rw [hkn, qseed_self, qseed_self]
      simp
    · rw [qseed_other _ _ _ _ (Ne.symm hkn), qseed_self]
  have hqt2N : qlookup (qseed actionSize (qseed actionSize qt
      (stateKey e.state)) (stateKey e.nextState)) (stateKey e.nextState) =
      some ((qlookup qt (stateKey e.nextState)).getD (zeros actionSize)) := by
    rw [qseed_self]
    by_cases hkn : stateKey e.nextState = stateKey e.state
    · rw [hkn, qseed_self]
      simp
    · rw [qseed_other _ _ _ _ hkn]
  have hqt2O : ∀ k, k ≠ stateKey e.state → k ≠ stateKey e.nextState →
      qlookup (qseed actionSize (qseed actionSize qt (stateKey e.state))
        (stateKey e.nextState)) k = qlookup qt k := by
    intro k h1 h2
    rw [qseed_other _ _ _ _ h2, qseed_other _ _ _ _ h1]
  refine ⟨?_, ?_, ?_⟩
  · simp only [qstep, hqt2K, hqt2N, Option.getD_some]
    rw [qlookup_qupdate_self, hqt2K]
    simp
  · intro hkn
    simp only [qstep, hqt2K, hqt2N, Option.getD_some]
    rw [qlookup_qupdate_ne _ _ _ _ hkn, hqt2N]
  · intro k h1 h2
    simp only [qstep, hqt2K, hqt2N, Option.getD_some]
    rw [qlookup_qupdate_ne _ _ _ _ h1, hqt2O k h1 h2]

/-- The batch of RLAgent.learn: actualBatchSize = min(batchSize,
memory.length) samples, sample i being the entry at index
Math.floor(rs i * memory.length) (uniform with replacement). -/
def sampleBatch (memory : List Exp) (batchSize : ℕ) (rs : ℕ → ℚ) : List Exp :=
  (List.range (min batchSize memory.length)).map
    (fun i => memory.getD (Int.toNat ⌊rs i * (memory.length : ℚ)⌋) defaultExp)

/-- RLAgent.learn of network.js: guard on min(batchSize, 100), sample a
batch with replacement, fold the tabular update over it, then decay
epsilon only when the buffer holds more than 500 experiences and epsilon
is above epsilonMin. -/
def learn (a : Agent) (batchSize : ℕ) (rs : ℕ → ℚ) : Agent :=
  if a.memory.length < min batchSize 100 then a
  else
    { a with
      qTable := (sampleBatch a.memory batchSize rs).foldl
        (qstep a.actionSize a.gamma a.learningRate) a.qTable,
      epsilon := if 500 < a.memory.length ∧ a.epsilonMin < a.epsilon
        then a.epsilon * a.epsilonDecay else a.epsilon }

def agentC4 : Agent :=
  { stateSize := 9, actionSize := 7, memory := List.replicate 100 defaultExp,
    gamma := 19/20, epsilon := 1, epsilonMin := 1/20,
    epsilonDecay := 999/1000, learningRate := 1/200, batchSize := 32,
    qTable := [] }

/-- Counterexample to claim C4 as stated: with batchSize 200 and a buffer
of exactly 100 experiences the guard passes (100 is not below
min(200, 100)), so learn is not a no-op, yet the code samples
min(batchSize, memory.length) = 100 experiences, not batchSize = 200. -/
theorem learn_counterexample :
    agentC4.memory.length = 100 ∧
    ¬ (agentC4.memory.length < min 200 100) ∧
    (sampleBatch agentC4.memory 200 (fun i => 0)).length = 100 ∧
    (100 : ℕ) ≠ 200 := by
  have hlen : agentC4.memory.length = 100 := by simp [agentC4]
  refine ⟨hlen, by rw [hlen]; decide, ?_, by decide⟩
  rw [sampleBatch, List.length_map, List.length_range, hlen]
  decide

theorem getD_set_self (l : List ℚ) (i : ℕ) (x : ℚ) (h : i < l.length) :
    (l.set i x).getD i 0 = x := by
  rw [List.getD_eq_getElem _ _ (by rw [List.length_set]; exact h)]
  exact List.getElem_set_self _

/-- Claim C4 (amended): learn(batchSize) is a no-op when the buffer holds
fewer than min(batchSize, 100) experiences; otherwise it samples
min(batchSize, buffer length) experiences — not always batchSize —
uniformly with replacement (sample i is the buffer entry at index
floor(rs i * length), an in-range index that ranges over the whole
buffer as the draw ranges over [0, 1)), folds the tabular update over
the samples (unseen keys get zero-initialized rows; the acted entry
becomes old + learningRate * (reward + (done ? 0 : gamma * max of the
next-state row) - old); other keys are untouched), and then multiplies
epsilon by epsilonDecay exactly when the buffer holds more than 500
experiences and epsilon exceeds epsilonMin. -/
theorem learn_spec (a : Agent) (batchSize : ℕ) (rs : ℕ → ℚ) :
    (a.memory.length < min batchSize 100 → learn a batchSize rs = a) ∧
    (¬ a.memory.length < min batchSize 100 →
      (learn a batchSize rs).epsilon =
        (if 500 < a.memory.length ∧ a.epsilonMin < a.epsilon
          then a.epsilon * a.epsilonDecay else a.epsilon) ∧
      (learn a batchSize rs).qTable =
        (sampleBatch a.memory batchSize rs).foldl
          (qstep a.actionSize a.gamma a.learningRate) a.qTable ∧
      (learn a batchSize rs).memory = a.memory) ∧
    (sampleBatch a.memory batchSize rs).length = min batchSize a.memory.length ∧
    (∀ i, i < min batchSize a.memory.length → 0 ≤ rs i → rs i < 1 →
      Int.toNat ⌊rs i * (a.memory.length : ℚ)⌋ < a.memory.length ∧
      (sampleBatch a.memory batchSize rs).getD i defaultExp =
        a.memory.getD (Int.toNat ⌊rs i * (a.memory.length : ℚ)⌋) defaultExp) ∧
    (∀ j, j < a.memory.length →
      Int.toNat ⌊((j : ℚ) / (a.memory.length : ℚ)) * (a.memory.length : ℚ)⌋ = j) ∧
    (∀ qt (e : Exp), qlookup qt (stateKey e.nextState) = none →
      stateKey e.nextState ≠ stateKey e.state →
      qlookup (qstep a.actionSize a.gamma a.learningRate qt e)
        (stateKey e.nextState) = some (zeros a.actionSize)) ∧
    (∀ qt (e : Exp) k, k ≠ stateKey e.state → k ≠ stateKey e.nextState →
      qlookup (qstep a.actionSize a.gamma a.learningRate qt e) k =
        qlookup qt k) ∧
    (∀ qt (e : Exp), (∀ kv ∈ qt, kv.2.length = a.actionSize) →
      e.action < a.actionSize →
      ((qlookup (qstep a.actionSize a.gamma a.learningRate qt e)
          (stateKey e.state)).getD (zeros a.actionSize)).getD e.action 0 =
        (((qlookup qt (stateKey e.state)).getD (zeros a.actionSize)).getD
            e.action 0) +
          a.learningRate * ((e.reward + (if e.done then 0 else a.gamma *
              listMax ((qlookup qt (stateKey e.nextState)).getD
                (zeros a.actionSize)))) -
            (((qlookup qt (stateKey e.state)).getD (zeros a.actionSize)).getD
              e.action 0))) := by
  refine ⟨?_, ?_, ?_, ?_, ?_, ?_, ?_, ?_⟩
  · intro h
    rw [learn, if_pos h]
  · intro h
    rw [learn, if_neg h]
    exact ⟨rfl, rfl, rfl⟩
  · rw [sampleBatch, List.length_map, List.length_range]
  · intro i hi h0 h1
    have hlen : 0 < a.memory.length := by omega
    refine ⟨floor_unit_mul_lt h0 h1 hlen, ?_⟩
    rw [sampleBatch, getD_range_map _ _ hi]
  · intro j hj
    exact floor_unit_div_mul hj
  · intro qt e hnone hne
    rw [(qstep_lookup a.actionSize a.gamma a.learningRate qt e).2.1 hne, hnone]
    rfl
  · intro qt e k h1 h2
    exact (qstep_lookup a.actionSize a.gamma a.learningRate qt e).2.2 k h1 h2
  · intro qt e hwf hact
    have hrowlen :
        ((qlookup qt (stateKey e.state)).getD (zeros a.actionSize)).length =
          a.actionSize := by
      cases hq : qlookup qt (stateKey e.state) with
      | none => simp [zeros]
      | some v =>
          simp only [Option.getD_some]
          exact hwf (stateKey e.state, v) (qlookup_some_mem _ _ _ hq)
    rw [(qstep_lookup a.actionSize a.gamma a.learningRate qt e).1,
      Option.getD_some]
    exact getD_set_self _ _ _ (by rw [hrowlen]; exact hact)

/-- Witness for C4 (amended) at a buffer of 100 entries and batch size
32: the guard passes, memory is unchanged and the sample count is
min(32, 100). -/
theorem learn_spec_witness :
    (learn agentC4 32 (fun i => 0)).memory = agentC4.memory ∧
    (sampleBatch agentC4.memory 32 (fun i => 0)).length =
      min 32 agentC4.memory.length := by
  have h := learn_spec agentC4 32 (fun i => 0)
  have hg := h.2.1 (by
    have hl : agentC4.memory.length = 100 := by simp [agentC4]
    rw [hl]
    decide)
  exact ⟨hg.2.2, h.2.2.1⟩

/- ### Error semantics of the two RLAgent lineages (C9) -/

/-- A JavaScript numeric slot: a finite number, NaN, or undefined (which
also stands for null here; both make toFixed throw). -/
inductive JSVal where
  | undef : JSVal
  | nan : JSVal
  | num : ℚ → JSVal
deriving DecidableEq, Repr

/-- JavaScript multiplication: any non-number operand yields NaN. -/
def jsMul : JSVal → JSVal → JSVal
  | JSVal.num x, JSVal.num y => JSVal.num (x * y)
  | _, _ => JSVal.nan

/-- JavaScript addition on numeric slots (no string concatenation case is
reachable here): any non-number operand yields NaN. -/
def jsAdd : JSVal → JSVal → JSVal
  | JSVal.num x, JSVal.num y => JSVal.num (x + y)
  | _, _ => JSVal.nan

/-- JavaScript subtraction: any non-number operand yields NaN. -/
def jsSub : JSVal → JSVal → JSVal
  | JSVal.num x, JSVal.num y => JSVal.num (x - y)
  | _, _ => JSVal.nan

/-- Math.round: undefined coerces to NaN and NaN stays NaN. -/
def jsRoundV : JSVal → JSVal
  | JSVal.num q => JSVal.num (jsRound q)
  | _ => JSVal.nan

/-- Division by a nonzero numeric literal. -/
def jsDivC : JSVal → ℚ → JSVal
  | JSVal.num q, c => JSVal.num (q / c)
  | _, _ => JSVal.nan

/-- Number.prototype.toFixed(d): a TypeError (error) when the receiver is
undefined or null; the string "NaN" (kept as the nan component) when it
is NaN; otherwise the number formatted to d decimals. -/
def jsToFixed (d : ℕ) : JSVal → Except Unit JSVal
  | JSVal.undef => Except.error ()
  | JSVal.nan => Except.ok JSVal.nan
  | JSVal.num q =>
      Except.ok (JSVal.num ((jsRound (q * ((10 ^ d : ℕ) : ℚ)) : ℚ) / ((10 ^ d : ℕ) : ℚ)))

/-- JavaScript strict equality on numeric slots: NaN === NaN is false. -/
def jsEq : JSVal → JSVal → Bool
  | JSVal.num x, JSVal.num y => decide (x = y)
  | JSVal.undef, JSVal.undef => true
  | _, _ => false

/-- Math.max spread over an array; NaN poisons the result; the empty case
(-Infinity in JavaScript) is mapped to NaN, unreachable below. -/
def jsMax : JSVal → JSVal → JSVal
  | JSVal.num x, JSVal.num y => JSVal.num (max x y)
  | _, _ => JSVal.nan

def jsListMax : List JSVal → JSVal
  | [] => JSVal.nan
  | x :: xs => xs.foldl jsMax x

/-- One key component of network.js _stateKey: sensor indices (below 5)
use (Math.round(x * 10) / 10).toFixed(1), where toFixed is applied to
the result of an arithmetic expression — always a number, possibly NaN,
never undefined — and the remaining indices use Math.round(x * 100) /
100 with no toFixed call at all. -/
def netKeyComp (i : ℕ) (x : JSVal) : Except Unit JSVal :=
  if i < 5 then jsToFixed 1 (jsDivC (jsRoundV (jsMul x (JSVal.num 10))) 10)
  else Except.ok (jsDivC (jsRoundV (jsMul x (JSVal.num 100))) 100)

/-- One key component of rl_agent.js _stateKey: x.toFixed(2) applied
directly to the state slot, a TypeError when the slot is undefined or
null. -/
def rlKeyComp (x : JSVal) : Except Unit JSVal := jsToFixed 2 x

def netStateKeyGo : ℕ → List JSVal → Except Unit (List JSVal)
  | _, [] => Except.ok []
  | i, x :: xs =>
    match netKeyComp i x, netStateKeyGo (i + 1) xs with
    | Except.ok c, Except.ok rest => Except.ok (c :: rest)
    | Except.error u, _ => Except.error u
    | _, Except.error u => Except.error u

/-- network.js _stateKey over JS value slots. -/
def netStateKey (state : List JSVal) : Except Unit (List JSVal) :=
  netStateKeyGo 0 state

/-- rl_agent.js _stateKey over JS value slots. -/
def rlStateKey : List JSVal → Except Unit (List JSVal)
  | [] => Except.ok []
  | x :: xs =>
    match rlKeyComp x, rlStateKey xs with
    | Except.ok c, Except.ok rest => Except.ok (c :: rest)
    | Except.error u, _ => Except.error u
    | _, Except.error u => Except.error u

theorem netKeyComp_ok (i : ℕ) (x : JSVal) :
    ∃ v, netKeyComp i x = Except.ok v := by
  by_cases hi : i < 5 <;>
    cases x <;>
      simp [netKeyComp, hi, jsDivC, jsRoundV, jsMul, jsToFixed]

theorem netStateKeyGo_ok (state : List JSVal) :
    ∀ i, ∃ k, netStateKeyGo i state = Except.ok k := by
  induction state with
  | nil => exact fun i => ⟨[], rfl⟩
  | cons x xs ih =>
      intro i
      obtain ⟨c, hc⟩ := netKeyComp_ok i x
      obtain ⟨rest, hrest⟩ := ih (i + 1)
      exact ⟨c :: rest, by simp [netStateKeyGo, hc, hrest]⟩

theorem rlKeyComp_ok (x : JSVal) (h : x ≠ JSVal.undef) :
    ∃ v, rlKeyComp x = Except.ok v := by
  cases x with
  | undef => exact absurd rfl h
  | nan => exact ⟨JSVal.nan, rfl⟩
  | num q => exact ⟨_, rfl⟩

theorem rlStateKey_ok (state : List JSVal)
    (h : ∀ x ∈ state, x ≠ JSVal.undef) :
    ∃ k, rlStateKey state = Except.ok k := by
  induction state with
  | nil => exact ⟨[], rfl⟩
  | cons x xs ih =>
      obtain ⟨c, hc⟩ := rlKeyComp_ok x (h x (List.mem_cons_self x xs))
      obtain ⟨rest, hrest⟩ := ih (fun y hy => h y (List.mem_cons_of_mem x hy))
      exact ⟨c :: rest, by simp [rlStateKey, hc, hrest]⟩

/-- An experience whose numeric slots are JS values; the action may be
non-numeric or out of range. -/
structure ExpJ where
  state : List JSVal
  action : JSVal
  reward : JSVal
  nextState : List JSVal
  done : Bool
deriving DecidableEq, Repr

def defaultExpJ : ExpJ := ⟨[], JSVal.num 0, JSVal.num 0, [], false⟩

/-- The RLAgent state shared by the error-semantics models of both
lineages. -/
structure AgentJ where
  stateSize : ℕ
  actionSize : ℕ
  memory : List ExpJ
  gamma : ℚ
  epsilon : ℚ
  epsilonMin : ℚ
  epsilonDecay : ℚ
  learningRate : ℚ
  qTable : List (List JSVal × List JSVal)
deriving DecidableEq, Repr

def qlookupJ : List (List JSVal × List JSVal) → List JSVal → Option (List JSVal)
  | [], _ => none
  | kv :: rest, k => if kv.1 = k then some kv.2 else qlookupJ rest k

def qupdateJ : List (List JSVal × List JSVal) → List JSVal → List JSVal →
    List (List JSVal × List JSVal)
  | [], _, _ => []
  | kv :: rest, k, v => if kv.1 = k then (k, v) :: rest else kv :: qupdateJ rest k v

def qseedJ (actionSize : ℕ) (qt : List (List JSVal × List JSVal))
    (k : List JSVal) : List (List JSVal × List JSVal) :=
  if (qlookupJ qt k).isNone then
    (k, List.replicate actionSize (JSVal.num 0)) :: qt
  else qt

/-- Array element read row[action] with an arbitrary JS index: a
non-integer, negative, NaN or undefined index reads a missing property,
yielding undefined; it never throws. -/
def jsGetAt (row : List JSVal) (idx : JSVal) : JSVal :=
  match idx with
  | JSVal.num q =>
      if q.den = 1 ∧ 0 ≤ q.num then row.getD q.num.toNat JSVal.undef
      else JSVal.undef
  | _ => JSVal.undef

/-- Array element write row[action] = v with an arbitrary JS index: a
non-index key (negative, fractional, NaN, undefined) creates an object
property outside the array storage, invisible to later element reads,
so the model drops it; no index ever throws. -/
def jsSetAt (row : List JSVal) (idx : JSVal) (v : JSVal) : List JSVal :=
  match idx with
  | JSVal.num q =>
      if q.den = 1 ∧ 0 ≤ q.num then row.set q.num.toNat v else row
  | _ => row

/-- One batch-loop iteration of learn, parametrized by the state-key
function of the lineage: seed zero rows for both keys, compute target =
reward + (done ? 0 : gamma * max of next row) in JS arithmetic, and add
learningRate * (target - old) to the acted entry. -/
def qstepJWith (keyf : List JSVal → Except Unit (List JSVal))
    (actionSize : ℕ) (gamma lr : ℚ) (qt : List (List JSVal × List JSVal))
    (e : ExpJ) : Except Unit (List (List JSVal × List JSVal)) :=
  match keyf e.state, keyf e.nextState with
  | Except.ok key, Except.ok nk =>
      let qt2 := qseedJ actionSize (qseedJ actionSize qt key) nk
      let row := (qlookupJ qt2 key).getD []
      let nrow := (qlookupJ qt2 nk).getD []
      let target := jsAdd e.reward
        (if e.done then JSVal.num 0 else jsMul (JSVal.num gamma) (jsListMax nrow))
      let old := jsGetAt row e.action
      Except.ok (qupdateJ qt2 key
        (jsSetAt row e.action (jsAdd old (jsMul (JSVal.num lr) (jsSub target old)))))
  | Except.error u, _ => Except.error u
  | _, Except.error u => Except.error u

def qFoldJ (actionSize : ℕ) (gamma lr : ℚ) :
    List ExpJ → List (List JSVal × List JSVal) →
    Except Unit (List (List JSVal × List JSVal))
  | [], qt => Except.ok qt
  | e :: rest, qt =>
    match qstepJWith netStateKey actionSize gamma lr qt e with
    | Except.ok qt1 => qFoldJ actionSize gamma lr rest qt1
    | Except.error u => Except.error u

def sampleBatchJ (memory : List ExpJ) (batchSize : ℕ) (rs : ℕ → ℚ) :
    List ExpJ :=
  (List.range (min batchSize memory.length)).map
    (fun i => memory.getD (Int.toNat ⌊rs i * (memory.length : ℚ)⌋) defaultExpJ)

/-- selectAction of network.js in the error-semantics model; an empty tie
set (possible when NaN poisons the row maximum, since NaN === NaN is
false) indexes out of range and returns undefined rather than
throwing. -/
def netSelectActionJ (a : AgentJ) (state : List JSVal) (r1 r2 : ℚ) :
    Except Unit JSVal :=
  if r1 < a.epsilon then
    Except.ok (JSVal.num ((Int.toNat ⌊r2 * (a.actionSize : ℚ)⌋ : ℕ) : ℚ))
  else
    match netStateKey state with
    | Except.error u => Except.error u
    | Except.ok key =>
        let row := (qlookupJ a.qTable key).getD
          (List.replicate a.actionSize (JSVal.num 0))
        let best := (List.range row.length).filter
          (fun i => jsEq (row.getD i (JSVal.num 0)) (jsListMax row))
        Except.ok ((best.map (fun n => JSVal.num (n : ℚ))).getD
          (Int.toNat ⌊r2 * (best.length : ℚ)⌋) JSVal.undef)

/-- Array.prototype.indexOf with strict equality; -1 when absent (always
so when the maximum is NaN). -/
def jsIndexOf (l : List JSVal) (v : JSVal) : ℤ :=
  match l.findIdx? (fun x => jsEq x v) with
  | some i => (i : ℤ)
  | none => -1

/-- selectAction of rl_agent.js in the error-semantics model: the greedy
branch calls _stateKey, which throws on an undefined slot. -/
def rlSelectActionJ (a : AgentJ) (state : List JSVal) (r1 r2 : ℚ) :
    Except Unit ℤ :=
  if r1 < a.epsilon then Except.ok ⌊r2 * (a.actionSize : ℚ)⌋
  else
    match rlStateKey state with
    | Except.error u => Except.error u
    | Except.ok key =>
        let row := (qlookupJ a.qTable key).getD
          (List.replicate a.actionSize (JSVal.num 0))
        Except.ok (jsIndexOf row (jsListMax row))

/-- storeExperience of network.js: push then slice; no operation can
throw. -/
def storeExperienceJ (memory : List ExpJ) (e : ExpJ) :
    Except Unit (List ExpJ) :=
  Except.ok (if 10000 < (memory ++ [e]).length then
    (memory ++ [e]).drop ((memory ++ [e]).length - 8000)
  else memory ++ [e])

/-- storeExperience of rl_agent.js: push then shift; no operation can
throw. -/
def storeExperienceShiftJ (memory : List ExpJ) (e : ExpJ) :
    Except Unit (List ExpJ) :=
  Except.ok (if 10000 < (memory ++ [e]).length then (memory ++ [e]).tail
  else memory ++ [e])

/-- learn of network.js in the error-semantics model. -/
def netLearnJ (a : AgentJ) (batchSize : ℕ) (rs : ℕ → ℚ) :
    Except Unit AgentJ :=
  if a.memory.length < min batchSize 100 then Except.ok a
  else
    match qFoldJ a.actionSize a.gamma a.learningRate
        (sampleBatchJ a.memory batchSize rs) a.qTable with
    | Except.ok qt =>
        Except.ok
          { a with
            qTable := qt
            epsilon := if 500 < a.memory.length ∧ a.epsilonMin < a.epsilon
              then a.epsilon * a.epsilonDecay else a.epsilon }
    | Except.error u => Except.error u

/-- learn of rl_agent.js in the error-semantics model: one uniformly
sampled experience, its keys computed by the throwing _stateKey. -/
def rlLearnJ (a : AgentJ) (r : ℚ) : Except Unit AgentJ :=
  if a.memory.length = 0 then Except.ok a
  else
    match qstepJWith rlStateKey a.actionSize a.gamma a.learningRate a.qTable
        (a.memory.getD (Int.toNat ⌊r * (a.memory.length : ℚ)⌋) defaultExpJ) with
    | Except.ok qt =>
        Except.ok
          { a with
            qTable := qt
            epsilon := if a.epsilonMin < a.epsilon
              then a.epsilon * a.epsilonDecay else a.epsilon }
    | Except.error u => Except.error u

def agentRL9 : AgentJ :=
  { stateSize := 9, actionSize := 4,
    memory := [⟨[JSVal.undef], JSVal.num 0, JSVal.num 0, [JSVal.num 0], false⟩],
    gamma := 19/20, epsilon := 1, epsilonMin := 1/100,
    epsilonDecay := 199/200, learningRate := 1/1000, qTable := [] }

/-- Counterexample to claim C9 as stated: in the rl_agent.js lineage,
_stateKey calls toFixed directly on each state slot, so a stored
experience whose state holds an undefined slot makes learn() throw a
TypeError (modelled as an error result) instead of completing
normally. -/
theorem rlLearn_throws_counterexample :
    rlStateKey [JSVal.undef] = Except.error () ∧
    rlLearnJ agentRL9 0 = Except.error () := by
  constructor
  · rfl
  · rw [rlLearnJ]
    simp [agentRL9, qstepJWith, rlStateKey, rlKeyComp, jsToFixed, List.getD]

/-- Claim C9 (amended): in the network.js lineage selectAction,
storeExperience and learn complete normally on every input — NaN or
undefined state slots are discretized into the NaN key component, and a
non-integer or out-of-range action reads and writes a plain object
property, never throwing; in the rl_agent.js lineage storeExperience
always completes, while selectAction and learn complete on states whose
slots are all defined (NaN allowed) but throw a TypeError from
_stateKey when a state slot is undefined or null. -/
theorem agent_ops_no_throw (a : AgentJ) (state : List JSVal) (e : ExpJ)
    (r1 r2 : ℚ) (batchSize : ℕ) (rs : ℕ → ℚ) :
    (∃ v, netSelectActionJ a state r1 r2 = Except.ok v) ∧
    (∃ m, storeExperienceJ a.memory e = Except.ok m) ∧
    (∃ m, storeExperienceShiftJ a.memory e = Except.ok m) ∧
    (∃ b, netLearnJ a batchSize rs = Except.ok b) ∧
    ((∀ x ∈ state, x ≠ JSVal.undef) →
      ∃ v, rlSelectActionJ a state r1 r2 = Except.ok v) ∧
    ((∀ ex ∈ a.memory, (∀ x ∈ ex.state, x ≠ JSVal.undef) ∧
        ∀ x ∈ ex.nextState, x ≠ JSVal.undef) →
      ∃ b, rlLearnJ a r1 = Except.ok b) := by
  have hfold : ∀ (batch : List ExpJ) qt, ∃ qt2,
      qFoldJ a.actionSize a.gamma a.learningRate batch qt = Except.ok qt2 := by
    intro batch
    induction batch with
    | nil => exact fun qt => ⟨qt, rfl⟩
    | cons e0 rest ih =>
        intro qt
        obtain ⟨k1, hk1⟩ := netStateKeyGo_ok e0.state 0
        obtain ⟨k2, hk2⟩ := netStateKeyGo_ok e0.nextState 0
        obtain ⟨qt1, h1⟩ : ∃ qt1, qstepJWith netStateKey a.actionSize a.gamma
            a.learningRate qt e0 = Except.ok qt1 := by
          rw [qstepJWith, show netStateKey e0.state = Except.ok k1 from hk1,
            show netStateKey e0.nextState = Except.ok k2 from hk2]
          exact ⟨_, rfl⟩
        obtain ⟨qt2, h2⟩ := ih qt1
        refine ⟨qt2, ?_⟩
        rw [qFoldJ, h1]
        exact h2
  refine ⟨?_, ⟨_, rfl⟩, ⟨_, rfl⟩, ?_, ?_, ?_⟩
  · by_cases h : r1 < a.epsilon
    · exact ⟨_, by rw [netSelectActionJ, if_pos h]⟩
    · obtain ⟨k, hk⟩ := netStateKeyGo_ok state 0
      exact ⟨_, by
        rw [netSelectActionJ, if_neg h,
          show netStateKey state = Except.ok k from hk]⟩
  · by_cases hg : a.memory.length < min batchSize 100
    · exact ⟨a, by rw [netLearnJ, if_pos hg]⟩
    · obtain ⟨qt2, hq⟩ := hfold
        (sampleBatchJ a.memory batchSize rs) a.qTable
      exact ⟨_, by rw [netLearnJ, if_neg hg, hq]⟩
  · intro hs
    by_cases h : r1 < a.epsilon
    · exact ⟨_, by rw [rlSelectActionJ, if_pos h]⟩
    · obtain ⟨k, hk⟩ := rlStateKey_ok state hs
      exact ⟨_, by rw [rlSelectActionJ, if_neg h, hk]⟩
  · intro hmem
    by_cases h0 : a.memory.length = 0
    · exact ⟨a, by rw [rlLearnJ, if_pos h0]⟩
    · have hstates : (∀ x ∈ (a.memory.getD
          (Int.toNat ⌊r1 * (a.memory.length : ℚ)⌋) defaultExpJ).state,
            x ≠ JSVal.undef) ∧
          ∀ x ∈ (a.memory.getD
            (Int.toNat ⌊r1 * (a.memory.length : ℚ)⌋) defaultExpJ).nextState,
            x ≠ JSVal.undef := by
        by_cases hi : Int.toNat ⌊r1 * (a.memory.length : ℚ)⌋ < a.memory.length
        · rw [List.getD_eq_getElem _ _ hi]
          exact hmem _ (List.getElem_mem hi)
        · rw [List.getD_eq_default _ _ (by omega)]
          exact ⟨fun x hx => absurd hx (List.not_mem_nil x),
            fun x hx => absurd hx (List.not_mem_nil x)⟩
      obtain ⟨k1, hk1⟩ := rlStateKey_ok _ hstates.1
      obtain ⟨k2, hk2⟩ := rlStateKey_ok _ hstates.2
      exact ⟨_, by rw [rlLearnJ, if_neg h0, qstepJWith, hk1, hk2]⟩

def agentNet9 : AgentJ :=
  { stateSize := 9, actionSize := 4, memory := [], gamma := 19/20,
    epsilon := 1, epsilonMin := 1/100, epsilonDecay := 199/200,
    learningRate := 1/1000, qTable := [] }

/-- Witness for C9 (amended): the greedy branch (the epsilon draw equals
epsilon) completes on a state with a NaN and an undefined slot in the
network.js model, and on an all-numeric state in the rl_agent.js
model. -/
theorem agent_ops_no_throw_witness :
    (∃ v, netSelectActionJ agentNet9 [JSVal.nan, JSVal.undef] 1 0 =
      Except.ok v) ∧
    ∃ v, rlSelectActionJ agentNet9 [JSVal.nan] 1 0 = Except.ok v := by
  refine ⟨?_, ?_⟩
  · exact (agent_ops_no_throw agentNet9 [JSVal.nan, JSVal.undef] defaultExpJ
      1 0 32 (fun i => 0)).1
  · exact (agent_ops_no_throw agentNet9 [JSVal.nan] defaultExpJ
      1 0 32 (fun i => 0)).2.2.2.2.1 (by decide)
